import Mathlib

/-!
# Verification of the exif-ai request-to-metadata pipeline

Shallow embedding of the core of `src/server.ts` (multipart decoding, tag
normalization, task orchestration and token accounting) plus a spec-modelled
metadata merge policy, with theorems settling the frozen claims about the
natural-language specification.

Strings from the wire are modelled as `List Char` (the server decodes the
request buffer with the byte-per-character `binary` encoding, so a character
list is a faithful image of the byte sequence).
-/

/-! ## Character classes

JavaScript regex character classes used by `server.ts`, restricted to the
character sets the source actually manipulates.  `isWs` models the JS `\s`
class on the whitespace characters relevant here, `isWordChar` models `\w`
(ASCII alphanumeric plus underscore). -/

/-- JS whitespace (`\s`, and the set trimmed by `String.prototype.trim`). -/
def isWs (c : Char) : Bool :=
  c == ' ' || c == '\t' || c == '\n' || c == '\r' || c == Char.ofNat 11 || c == Char.ofNat 12

/-- JS `\w`: ASCII letters, digits and underscore. -/
def isWordChar (c : Char) : Bool :=
  c.isAlpha || c.isDigit || c == '_'

/-- Delimiters of the tag split regex `/[,\n;|]/` in `server.ts`. -/
def isSep (c : Char) : Bool :=
  c == ',' || c == '\n' || c == ';' || c == '|'

/-- The literal space the word-count split `tag.split(' ')` uses. -/
def isSpaceChar (c : Char) : Bool :=
  c == ' '

/-- The class of `/^[*\-•\d\.\)\]\}\>"\'\`]+\s*/`: characters whose leading
run is stripped from a tag candidate (bullet, markdown and numbering
artifacts).  `Char.ofNat 8226` is the bullet, `Char.ofNat 125` the closing
brace, `Char.ofNat 39` the apostrophe and `Char.ofNat 96` the backtick. -/
def isLeadStrip (c : Char) : Bool :=
  c == '*' || c == '-' || c == Char.ofNat 8226 || c.isDigit || c == '.' || c == ')' ||
    c == ']' || c == Char.ofNat 125 || c == '>' || c == '"' || c == Char.ofNat 39 ||
    c == Char.ofNat 96

/-- The class of `/[*"\'\`\[\{\<\]\}\>]+$/`: characters whose trailing run is
stripped from a tag candidate. -/
def isTrailStrip (c : Char) : Bool :=
  c == '*' || c == '"' || c == Char.ofNat 39 || c == Char.ofNat 96 || c == '[' ||
    c == Char.ofNat 123 || c == '<' || c == ']' || c == Char.ofNat 125 || c == '>'

/-! ## Basic list-of-characters operations -/

/-- Holds when `l` is empty or its head fails `p`. -/
def headSat (p : Char → Bool) : List Char → Bool
  | [] => true
  | c :: _ => !p c

/-- Holds when `c` paired with the head of the following list is not two
adjacent whitespace characters. -/
def okPair (c : Char) : List Char → Bool
  | [] => true
  | d :: _ => !(isWs c && isWs d)

/-- No two adjacent whitespace characters anywhere in the list. -/
def noAdjSpace : List Char → Bool
  | [] => true
  | c :: cs => okPair c cs && noAdjSpace cs

/-- Holds when `l` is empty or its last character is not whitespace. -/
def lastNotWs : List Char → Bool
  | [] => true
  | [c] => !isWs c
  | _ :: c :: cs => lastNotWs (c :: cs)

/-- The first character is a decimal digit. -/
def startsWithDigit : List Char → Bool
  | [] => false
  | c :: _ => c.isDigit

/-- Characters a cleaned tag can contain: word characters and plain
spaces. -/
def goodChar (c : Char) : Bool :=
  isWordChar c || c == ' '

/-- A canonical tag: only word characters and spaces, no space runs, no
leading or trailing whitespace. -/
def canonTag (t : List Char) : Prop :=
  (∀ a ∈ t, goodChar a = true) ∧ noAdjSpace t = true ∧
    headSat isWs t = true ∧ lastNotWs t = true

/-- Strip leading JS whitespace (first half of `String.prototype.trim`). -/
def trimL (s : List Char) : List Char :=
  s.dropWhile isWs

/-- Strip trailing JS whitespace (second half of `String.prototype.trim`). -/
def trimRgo : List Char → List Char
  | [] => []
  | c :: cs => if isWs c && (trimRgo cs).isEmpty then [] else c :: trimRgo cs

/-- JS `String.prototype.trim`. -/
def trim (s : List Char) : List Char :=
  trimRgo (trimL s)

/-- Test `leadsWith sub s`: `sub` is a leading segment of `s`. -/
def leadsWith : List Char → List Char → Bool
  | [], _ => true
  | _ :: _, [] => false
  | a :: as, b :: bs => a == b && leadsWith as bs

/-! ## Tag normalizer (`server.ts`, tag-cleaning block of `handleRequest`)

The second `handleRequest` in `server.ts` turns the raw model output into the
final tag list:
`tagsText.split(/[,\n;|]/).map(trim)` then per candidate the two anchored
strips, the non-word replacement, whitespace collapapse and trim, then the
length/word-count filter and `slice(0, 20)`. -/

/-- Split on a character predicate, keeping empty pieces, returning the first
piece and the remaining pieces (the result of a JS `split` on a one-character
class is `splitP`). -/
def splitPAux (p : Char → Bool) : List Char → List Char × List (List Char)
  | [] => ([], [])
  | c :: cs =>
    let r := splitPAux p cs
    if p c then ([], r.1 :: r.2) else (c :: r.1, r.2)

/-- JS `String.prototype.split` on a one-character regex class `p`. -/
def splitP (p : Char → Bool) (l : List Char) : List (List Char) :=
  (splitPAux p l).1 :: (splitPAux p l).2

/-- Model of `tag.replace(/^[*\-•\d\.\)\]\}\>"\'\`]+\s*/, '')`: when the first
character is in the lead class, drop the maximal run of lead-class characters
and then the following whitespace run. -/
def stripLead (s : List Char) : List Char :=
  match s with
  | [] => []
  | c :: cs =>
    if isLeadStrip c then ((c :: cs).dropWhile isLeadStrip).dropWhile isWs
    else c :: cs

/-- Model of `tag.replace(/[*"\'\`\[\{\<\]\}\>]+$/, '')`: drop the maximal trailing
run of trail-class characters. -/
def stripTrail (s : List Char) : List Char :=
  (s.reverse.dropWhile isTrailStrip).reverse

/-- One character under `tag.replace(/[^\w\s]/g, ' ')`. -/
def replaceChar (c : Char) : Char :=
  if isWordChar c || isWs c then c else ' '

/-- Model of `tag.replace(/[^\w\s]/g, ' ')`: non-word, non-whitespace characters
become spaces. -/
def replaceNonWord (s : List Char) : List Char :=
  s.map replaceChar

/-- Model of `tag.replace(/\s+/g, ' ')`: collapse every whitespace run to one space.
The Boolean state records whether the previous character was whitespace. -/
def collapseGo : Bool → List Char → List Char
  | _, [] => []
  | true, c :: cs => if isWs c then collapseGo true cs else c :: collapseGo false cs
  | false, c :: cs => if isWs c then ' ' :: collapseGo true cs else c :: collapseGo false cs

/-- The per-candidate cleaning chain of the tag block: lead strip, trail
strip, non-word replacement, whitespace collapse, trim. -/
def cleanTag (t : List Char) : List Char :=
  trim (collapseGo false (replaceNonWord (stripTrail (stripLead t))))

/-- The filter of the tag block: non-empty, at most 50 characters, at most 2
space-separated words (`tag.split(' ').length <= 2`). -/
def keepTag (t : List Char) : Bool :=
  decide (0 < t.length) && decide (t.length ≤ 50) &&
    decide ((splitP isSpaceChar t).length ≤ 2)

/-- The whole tag normalization of `handleRequest`: split on the delimiter
class, trim each candidate, clean each candidate, filter, keep the first
20. -/
def normalizeTags (s : List Char) : List (List Char) :=
  (((((splitP isSep s).map trim).map cleanTag).filter keepTag).take 20)

/-- Comma-join of a tag list (the "comma-joined output" the idempotence claim
re-feeds to the normalizer). -/
def joinTags : List (List Char) → List Char
  | [] => []
  | [t] => t
  | t :: ts => t ++ ',' :: ' ' :: joinTags ts

/-! ## Multipart decoder (`parseMultipartData` in `server.ts`)

The handler on `end` concatenates the chunks, extracts the boundary from the
content-type header with `split("boundary=")[1]`, splits the body string on
`--boundary`, and for each piece containing the `Content-Disposition:
form-data` marker separates headers from body at the first `\r\n\r\n`,
matches `name="…"` and `filename="…"`, trims the body and stores it under the
matched name.  Failure (promise rejection) happens only at the boundary
check. -/

/-- Split a character list on a non-empty separator `sc :: rest`, JS
`String.prototype.split` style (non-overlapping, left to right, empty pieces
kept).  `fuel` is an upper bound on the remaining length, making the
recursion structural; callers pass the length of the scanned list. -/
def splitSubGo (sc : Char) (rest : List Char) : Nat → List Char → List Char → List (List Char)
  | 0, _, acc => [acc.reverse]
  | _, [], acc => [acc.reverse]
  | fuel + 1, c :: cs, acc =>
    if leadsWith (sc :: rest) (c :: cs) then
      acc.reverse :: splitSubGo sc rest fuel (cs.drop rest.length) []
    else
      splitSubGo sc rest fuel cs (c :: acc)

/-- JS `s.split(sep)` for a non-empty string separator (every separator used
by `parseMultipartData` — `"boundary="`, `"--" + boundary`, `"\r\n\r\n"` — is
non-empty). -/
def splitOnSub (sep s : List Char) : List (List Char) :=
  match sep with
  | [] => [s]
  | sc :: rest => splitSubGo sc rest s.length s []

/-- JS `s.includes(sub)` for non-empty `sub`. -/
def containsSub (sub : List Char) : List Char → Bool
  | [] => sub.isEmpty
  | c :: cs => leadsWith sub (c :: cs) || containsSub sub cs

/-- Leftmost match of the regex `key("([^"]+)")`, i.e. the literal `key`
followed by a non-empty capture up to a closing double quote; the capture is
returned.  Models `headers.match(/name="([^"]+)"/)` with `key = name="`. -/
def matchCapture (key : List Char) : List Char → Option (List Char)
  | [] => none
  | c :: cs =>
    if leadsWith key (c :: cs) then
      let rest := (c :: cs).drop key.length
      let cap := rest.takeWhile (fun x => x != '"')
      if !cap.isEmpty && decide (cap.length < rest.length) then some cap
      else matchCapture key cs
    else matchCapture key cs

/-- Model of `req.headers["content-type"]?.split("boundary=")[1]` followed by the
falsy check `if (!boundary)`: a missing header, a header without
`boundary=`, or an empty token after it, all yield `none`. -/
def extractBoundary (ct : Option (List Char)) : Option (List Char) :=
  match ct with
  | none => none
  | some s =>
    match (splitOnSub "boundary=".toList s).drop 1 with
    | [] => none
    | b :: _ => if b.isEmpty then none else some b

/-- The decoded form: named text fields and named file payloads, keyed by the
matched `name` capture, in insertion order. -/
structure FormData where
  fields : List (List Char × List Char)
  files : List (List Char × List Char)
  deriving DecidableEq, Repr

/-- JS object assignment `obj[k] = v`: update in place if the key exists,
append otherwise. -/
def setKey (k v : List Char) (m : List (List Char × List Char)) :
    List (List Char × List Char) :=
  if m.any (fun p => p.1 == k) then m.map (fun p => if p.1 == k then (k, v) else p)
  else m ++ [(k, v)]

/-- The `Content-Disposition: form-data` marker each kept part must
contain. -/
def dispMarker : List Char := "Content-Disposition: form-data".toList

/-- The blank-line delimiter between a part's header block and its body. -/
def crlf2 : List Char := "\r\n\r\n".toList

/-- The key of the name-attribute regex. -/
def nameKey : List Char := "name=\"".toList

/-- The key of the filename-attribute regex. -/
def filenameKey : List Char := "filename=\"".toList

/-- Model of `part.split("\r\n\r\n")[0]`. -/
def partHeaders (part : List Char) : List Char :=
  (splitOnSub crlf2 part).headD []

/-- Model of `part.split("\r\n\r\n").slice(1).join("\r\n\r\n").trim()`.  Note the
`.trim()`: the source trims arbitrary leading and trailing JS whitespace from
the part body. -/
def partContent (part : List Char) : List Char :=
  trim (List.intercalate crlf2 ((splitOnSub crlf2 part).drop 1))

/-- Model of `content.replace(/\r\n$/, "")`: drop one trailing CRLF if present (dead
after the `.trim()` above, kept for faithfulness to the source). -/
def stripTrailingCrlf (s : List Char) : List Char :=
  if leadsWith ['\n', '\r'] s.reverse then (s.reverse.drop 2).reverse else s

/-- The body of the `for (const part of parts)` loop of
`parseMultipartData`. -/
def processPart (st : FormData) (part : List Char) : FormData :=
  if containsSub dispMarker part then
    match matchCapture nameKey (partHeaders part) with
    | none => st
    | some fieldName =>
      match matchCapture filenameKey (partHeaders part) with
      | some _ =>
        { st with files := setKey fieldName (stripTrailingCrlf (partContent part)) st.files }
      | none =>
        { st with fields := setKey fieldName (stripTrailingCrlf (partContent part)) st.fields }
  else st

/-- Model of `parseMultipartData`: reject when no boundary token is extracted,
otherwise split the body on `--boundary` and fold the part loop over the
pieces. -/
def parseMultipartData (contentType : Option (List Char)) (body : List Char) :
    Except (List Char) FormData :=
  match extractBoundary contentType with
  | none => .error "No boundary found in content-type".toList
  | some boundary =>
    .ok (((splitOnSub ("--".toList ++ boundary) body)).foldl processPart ⟨[], []⟩)

/-- Whether an `Except` carries a success value. -/
def exceptOk : Except (List Char) FormData → Bool
  | .ok _ => true
  | .error _ => false

/-! ## Orchestrator (`/process` task block of the second `handleRequest`)

Lines 545–633 of `server.ts`: per-task `try`/`catch` around the provider
calls, degradation to the initial empty values on failure, tag
normalization, token accumulation with `usage?.totalTokens || 0`, and the
`sendResponse(res, 200, { success: true, …, ...(totalTokensUsed > 0 && {
tokenUsage }) })` payload.  The two provider calls are inputs of the model
(they are awaited promises of an external module): a resolved promise is
`Except.ok`, a thrown error is `Except.error`. -/

/-- The value of one `get…WithUsage` call: generated text plus the optional
`usage.totalTokens` accounting. -/
structure GenResult where
  text : List Char
  usage : Option Nat
  deriving DecidableEq, Repr

/-- The `tokenUsage` object of the success response. -/
structure TokenUsage where
  description : Nat
  tags : Nat
  total : Nat
  deriving DecidableEq, Repr

/-- The JSON payload (and status code) `handleRequest` sends for a processed
image. -/
structure ProcessResponse where
  status : Nat
  success : Bool
  description : List Char
  tags : List (List Char)
  rawTagsText : List Char
  tokenUsage : Option TokenUsage
  deriving DecidableEq, Repr

/-- The description task: skipped unless `tasks` contains `description`;
on success the text (`descResult.text || ""`) and
`usage?.totalTokens || 0`; on a caught error the initial `("", 0)`. -/
def descOutcome (tasks : List (List Char)) (descCall : Except (List Char) GenResult) :
    List Char × Nat :=
  if tasks.contains "description".toList then
    match descCall with
    | .ok r => (r.text, r.usage.getD 0)
    | .error _ => ([], 0)
  else ([], 0)

/-- The tag task: skipped unless `tasks` contains `tag` or `tags`; on
success the raw text and its token count; on a caught error nothing. -/
def tagOutcome (tasks : List (List Char)) (tagCall : Except (List Char) GenResult) :
    Option (List Char) × Nat :=
  if tasks.contains "tag".toList || tasks.contains "tags".toList then
    match tagCall with
    | .ok r => (some r.text, r.usage.getD 0)
    | .error _ => (none, 0)
  else (none, 0)

/-- The task block of `handleRequest` for one `/process` request, given the
requested tasks and the outcomes of the two provider calls. -/
def processTasks (tasks : List (List Char))
    (descCall tagCall : Except (List Char) GenResult) : ProcessResponse :=
  { status := 200
    success := true
    description := (descOutcome tasks descCall).1
    tags := match (tagOutcome tasks tagCall).1 with
            | some txt => normalizeTags txt
            | none => []
    rawTagsText := ((tagOutcome tasks tagCall).1).getD []
    tokenUsage :=
      if 0 < (descOutcome tasks descCall).2 + (tagOutcome tasks tagCall).2 then
        some ⟨(descOutcome tasks descCall).2, (tagOutcome tasks tagCall).2,
              (descOutcome tasks descCall).2 + (tagOutcome tasks tagCall).2⟩
      else none }

/-- Modelled from the spec: provider dispatch.  The provider module
`src/provider/ai-sdk.js` is not in the source tree; per spec section 4.2 the
generation call is selected purely by provider identifier and fails with a
provider error when the identifier is unknown, which `handleRequest` then
catches per task. -/
def dispatch (registry : List (List Char)) (provider : List Char) (outcome : GenResult) :
    Except (List Char) GenResult :=
  if registry.contains provider then .ok outcome
  else .error ("Unknown provider: ".toList ++ provider)

/-! ## Metadata merge policy (spec-modelled)

The CLI pipeline `execute` of `src/index.ts` is not in the source tree (only
its test file is present), so the merge policy and the dry-mode frame are
modelled from spec sections 4.4 and the glossary. -/

/-- The fixed set of description-bearing metadata fields (spec glossary:
comment, description, image-description, caption). -/
inductive DescField
  | xpComment
  | description
  | imageDescription
  | captionAbstract
  deriving DecidableEq, Repr

/-- Modelled from the spec: the per-field merge policy of spec section 4.4
(`src/index.ts` `execute` is missing from the source tree).  With no
generated value the field keeps its prior value; with `avoidOverwrite` false
a generated value always overwrites; with `avoidOverwrite` true a non-empty
prior value is kept, an empty one is replaced. -/
def mergeField (avoidOverwrite : Bool) (existing : List Char)
    (generated : Option (List Char)) : List Char :=
  match generated with
  | none => existing
  | some g => if avoidOverwrite then (if existing.isEmpty then g else existing) else g

/-- The pipeline flags the merge/persist step depends on. -/
structure PipelineOptions where
  avoidOverwrite : Bool
  dry : Bool
  deriving DecidableEq, Repr

/-- Outcome of the merge/persist step: the document as left on disk, and the
computed would-be result the pipeline returns. -/
structure PipelineResult where
  persisted : DescField → List Char
  computed : DescField → List Char

/-- Modelled from the spec: the merge-then-persist tail of the `execute`
pipeline (spec sections 4.4 and 4.5 state machine: `Merged → Persisted` is
skipped entirely in dry mode, which must compute and return the would-be
result without mutating the underlying document). -/
def executeMerge (opts : PipelineOptions) (doc : DescField → List Char)
    (generated : Option (List Char)) : PipelineResult :=
  { persisted := fun f =>
      if opts.dry then doc f else mergeField opts.avoidOverwrite (doc f) generated
    computed := fun f => mergeField opts.avoidOverwrite (doc f) generated }

/-! ## Lemmas: characters of a cleaned tag -/

/-- A good non-digit character is not in the lead-strip class. -/
theorem good_not_lead (c : Char) (h : goodChar c = true) (hd : c.isDigit = false) :
    isLeadStrip c = false := by
  cases hl : isLeadStrip c with
  | false => rfl
  | true =>
    exfalso
    simp only [isLeadStrip, Bool.or_eq_true, beq_iff_eq] at hl
    casesm* _ ∨ _ <;> subst_vars <;> simp_all [goodChar, isWordChar]

/-- A good character is not in the trail-strip class. -/
theorem good_not_trail (c : Char) (h : goodChar c = true) : isTrailStrip c = false := by
  cases hl : isTrailStrip c with
  | false => rfl
  | true =>
    exfalso
    simp only [isTrailStrip, Bool.or_eq_true, beq_iff_eq] at hl
    casesm* _ ∨ _ <;> (subst_vars; simp [goodChar, isWordChar] at h)

/-- A good character is not a tag delimiter. -/
theorem good_not_sep (c : Char) (h : goodChar c = true) : isSep c = false := by
  cases hl : isSep c with
  | false => rfl
  | true =>
    exfalso
    simp only [isSep, Bool.or_eq_true, beq_iff_eq] at hl
    casesm* _ ∨ _ <;> (subst_vars; simp [goodChar, isWordChar] at h)

/-- The only good whitespace character is the plain space. -/
theorem good_ws_space (c : Char) (h : goodChar c = true) (hw : isWs c = true) : c = ' ' := by
  simp only [isWs, Bool.or_eq_true, beq_iff_eq] at hw
  casesm* _ ∨ _ <;> (subst_vars; first | rfl | simp [goodChar, isWordChar] at h)

/-- The non-word replacement keeps good characters. -/
theorem replaceChar_id (c : Char) (h : goodChar c = true) : replaceChar c = c := by
  have h' := h
  simp only [goodChar, Bool.or_eq_true, beq_iff_eq] at h'
  rcases h' with hw | rfl
  · simp [replaceChar, hw]
  · decide

/-- Characters of the non-word replacement output are word characters or
whitespace. -/
theorem mem_replaceNonWord (s : List Char) (a : Char) (ha : a ∈ replaceNonWord s) :
    isWordChar a = true ∨ isWs a = true := by
  unfold replaceNonWord at ha
  rcases List.mem_map.mp ha with ⟨b, _, rfl⟩
  unfold replaceChar
  split
  · rename_i hb
    exact Bool.or_eq_true _ _ |>.mp hb
  · right; decide

/-! ## Lemmas: basic list facts -/

/-- A pointwise-fixed map is the identity. -/
theorem map_eq_self_of_mem {α : Type} (f : α → α) (l : List α) (h : ∀ a ∈ l, f a = a) :
    l.map f = l := by
  induction l with
  | nil => rfl
  | cons x xs ih =>
    rw [List.map_cons, h x (List.mem_cons_self _ _),
      ih (fun a ha => h a (List.mem_cons_of_mem _ ha))]

/-- The head of `dropWhile p` fails `p`. -/
theorem headSat_dropWhile (p : Char → Bool) (l : List Char) :
    headSat p (l.dropWhile p) = true := by
  induction l with
  | nil => rfl
  | cons c cs ih =>
    rw [List.dropWhile_cons]
    split
    · exact ih
    · rename_i hc
      simp only [headSat, Bool.not_eq_true']
      exact Bool.not_eq_true _ |>.mp hc

/-- The `dropWhile` of a list whose head already fails `p` is the list itself. -/
theorem dropWhile_eq_self_of_headSat (p : Char → Bool) (l : List Char)
    (h : headSat p l = true) : l.dropWhile p = l := by
  cases l with
  | nil => rfl
  | cons c cs =>
    simp only [headSat, Bool.not_eq_true'] at h
    rw [List.dropWhile_cons, if_neg (by simp [h])]

/-- Members of `dropWhile p l` are members of `l`. -/
theorem mem_dropWhile (p : Char → Bool) (l : List Char) (a : Char)
    (ha : a ∈ l.dropWhile p) : a ∈ l := by
  induction l with
  | nil => simp at ha
  | cons c cs ih =>
    rw [List.dropWhile_cons] at ha
    split at ha
    · exact List.mem_cons_of_mem _ (ih ha)
    · exact ha

theorem noAdjSpace_cons (c : Char) (cs : List Char) :
    noAdjSpace (c :: cs) = (okPair c cs && noAdjSpace cs) := rfl

theorem noAdj_tail (c : Char) (cs : List Char) (h : noAdjSpace (c :: cs) = true) :
    noAdjSpace cs = true :=
  (Bool.and_eq_true _ _ |>.mp h).2

/-- A pair headed by a non-whitespace character is fine. -/
theorem okPair_of_not_ws (c : Char) (l : List Char) (h : isWs c = false) :
    okPair c l = true := by
  cases l <;> simp [okPair, h]

/-- A pair closing on a list whose head is not whitespace is fine. -/
theorem okPair_of_headSat (c : Char) (l : List Char) (h : headSat isWs l = true) :
    okPair c l = true := by
  cases l with
  | nil => rfl
  | cons d ds =>
    simp only [headSat, Bool.not_eq_true'] at h
    simp [okPair, h]

/-- The `dropWhile` image of a list keeps the absence of adjacent whitespace. -/
theorem noAdj_dropWhile (p : Char → Bool) (l : List Char) (h : noAdjSpace l = true) :
    noAdjSpace (l.dropWhile p) = true := by
  induction l with
  | nil => simpa using h
  | cons c cs ih =>
    rw [List.dropWhile_cons]
    split
    · exact ih (noAdj_tail _ _ h)
    · exact h

/-! ## Lemmas: the right trim -/

theorem trimRgo_cons (c : Char) (cs : List Char) :
    trimRgo (c :: cs) = if isWs c && (trimRgo cs).isEmpty then [] else c :: trimRgo cs := rfl

theorem trimRgo_cases (c : Char) (cs : List Char) :
    trimRgo (c :: cs) = [] ∨ trimRgo (c :: cs) = c :: trimRgo cs := by
  rw [trimRgo_cons]
  split
  · exact Or.inl rfl
  · exact Or.inr rfl

theorem mem_trimRgo (l : List Char) (a : Char) (ha : a ∈ trimRgo l) : a ∈ l := by
  induction l with
  | nil => simp [trimRgo] at ha
  | cons c cs ih =>
    rcases trimRgo_cases c cs with h | h <;> rw [h] at ha
    · simp at ha
    · rcases List.mem_cons.mp ha with rfl | hm
      · exact List.mem_cons_self _ _
      · exact List.mem_cons_of_mem _ (ih hm)

theorem headSat_trimRgo (p : Char → Bool) (l : List Char) (h : headSat p l = true) :
    headSat p (trimRgo l) = true := by
  cases l with
  | nil => exact h
  | cons c cs =>
    rcases trimRgo_cases c cs with hc | hc <;> rw [hc]
    · rfl
    · exact h

theorem noAdj_trimRgo (l : List Char) (h : noAdjSpace l = true) :
    noAdjSpace (trimRgo l) = true := by
  induction l with
  | nil => exact h
  | cons c cs ih =>
    rcases trimRgo_cases c cs with hc | hc <;> rw [hc]
    · rfl
    · rw [noAdjSpace_cons, Bool.and_eq_true]
      refine ⟨?_, ih (noAdj_tail _ _ h)⟩
      cases cs with
      | nil => rfl
      | cons d ds =>
        rcases trimRgo_cases d ds with hd | hd <;> rw [hd]
        · rfl
        · exact (Bool.and_eq_true _ _ |>.mp h).1

theorem lastNotWs_trimRgo (l : List Char) : lastNotWs (trimRgo l) = true := by
  induction l with
  | nil => rfl
  | cons c cs ih =>
    rw [trimRgo_cons]
    split
    · rfl
    · rename_i hcond
      cases hcs : trimRgo cs with
      | nil =>
        rw [hcs, List.isEmpty_nil, Bool.and_true] at hcond
        have hc : isWs c = false := Bool.not_eq_true _ |>.mp hcond
        simp [lastNotWs, hc]
      | cons d ds =>
        show lastNotWs (d :: ds) = true
        rw [← hcs]
        exact ih

theorem trimRgo_id (l : List Char) (h : lastNotWs l = true) : trimRgo l = l := by
  induction l with
  | nil => rfl
  | cons c cs ih =>
    cases cs with
    | nil =>
      have hc : isWs c = false := by simpa [lastNotWs] using h
      simp [trimRgo_cons, hc, trimRgo]
    | cons d ds =>
      have hcs : trimRgo (d :: ds) = d :: ds := ih h
      rw [trimRgo_cons, hcs]
      simp

/-! ## Lemmas: whitespace collapse -/

theorem collapseGo_true_cons (c : Char) (cs : List Char) :
    collapseGo true (c :: cs) =
      if isWs c then collapseGo true cs else c :: collapseGo false cs := rfl

theorem collapseGo_false_cons (c : Char) (cs : List Char) :
    collapseGo false (c :: cs) =
      if isWs c then ' ' :: collapseGo true cs else c :: collapseGo false cs := rfl

theorem mem_collapseGo (l : List Char) :
    ∀ (b : Bool) (a : Char), a ∈ collapseGo b l → a = ' ' ∨ (a ∈ l ∧ isWs a = false) := by
  induction l with
  | nil => intro b a ha; cases b <;> simp [collapseGo] at ha
  | cons c cs ih =>
    intro b a ha
    have lift : a = ' ' ∨ (a ∈ cs ∧ isWs a = false) →
        a = ' ' ∨ (a ∈ c :: cs ∧ isWs a = false) := by
      rintro (h | ⟨hm, hn⟩)
      · exact Or.inl h
      · exact Or.inr ⟨List.mem_cons_of_mem _ hm, hn⟩
    cases b with
    | true =>
      rw [collapseGo_true_cons] at ha
      split at ha
      · exact lift (ih true a ha)
      · rename_i hnc
        rcases List.mem_cons.mp ha with rfl | ha'
        · exact Or.inr ⟨List.mem_cons_self _ _, Bool.not_eq_true _ |>.mp hnc⟩
        · exact lift (ih false a ha')
    | false =>
      rw [collapseGo_false_cons] at ha
      split at ha
      · rcases List.mem_cons.mp ha with rfl | ha'
        · exact Or.inl rfl
        · exact lift (ih true a ha')
      · rename_i hnc
        rcases List.mem_cons.mp ha with rfl | ha'
        · exact Or.inr ⟨List.mem_cons_self _ _, Bool.not_eq_true _ |>.mp hnc⟩
        · exact lift (ih false a ha')

theorem headSat_collapseGo_true (l : List Char) :
    headSat isWs (collapseGo true l) = true := by
  induction l with
  | nil => rfl
  | cons c cs ih =>
    rw [collapseGo_true_cons]
    split
    · exact ih
    · rename_i hnc
      simp only [headSat, Bool.not_eq_true']
      exact Bool.not_eq_true _ |>.mp hnc

theorem noAdj_collapseGo (l : List Char) : ∀ b, noAdjSpace (collapseGo b l) = true := by
  induction l with
  | nil => intro b; cases b <;> rfl
  | cons c cs ih =>
    intro b
    have htail : noAdjSpace (' ' :: collapseGo true cs) = true := by
      rw [noAdjSpace_cons, Bool.and_eq_true]
      exact ⟨okPair_of_headSat _ _ (headSat_collapseGo_true cs), ih true⟩
    have hkeep : isWs c = false → noAdjSpace (c :: collapseGo false cs) = true := by
      intro hnc
      rw [noAdjSpace_cons, Bool.and_eq_true]
      exact ⟨okPair_of_not_ws _ _ hnc, ih false⟩
    cases b with
    | true =>
      rw [collapseGo_true_cons]
      split
      · exact ih true
      · rename_i hnc; exact hkeep (Bool.not_eq_true _ |>.mp hnc)
    | false =>
      rw [collapseGo_false_cons]
      split
      · exact htail
      · rename_i hnc; exact hkeep (Bool.not_eq_true _ |>.mp hnc)

/-- On a canonical list (good characters, no adjacent spaces) the collapse is
the identity; started in whitespace state it is still the identity when the
head is not whitespace. -/
theorem collapseGo_id (l : List Char) (hg : ∀ a ∈ l, goodChar a = true)
    (hn : noAdjSpace l = true) :
    collapseGo false l = l ∧ (headSat isWs l = true → collapseGo true l = l) := by
  induction l with
  | nil => exact ⟨rfl, fun _ => rfl⟩
  | cons c cs ih =>
    have hg' : ∀ a ∈ cs, goodChar a = true := fun a ha => hg a (List.mem_cons_of_mem _ ha)
    obtain ⟨ih1, ih2⟩ := ih hg' (noAdj_tail _ _ hn)
    by_cases hw : isWs c = true
    · have hsp : c = ' ' := good_ws_space c (hg c (List.mem_cons_self _ _)) hw
      have hhead : headSat isWs cs = true := by
        cases cs with
        | nil => rfl
        | cons d ds =>
          have hp := (Bool.and_eq_true _ _ |>.mp hn).1
          simp only [okPair, hw, Bool.true_and, Bool.not_eq_true'] at hp
          simp only [headSat, Bool.not_eq_true']
          exact hp
      constructor
      · rw [collapseGo_false_cons, if_pos hw, ih2 hhead, hsp]
      · intro hh
        simp [headSat, hw] at hh
    · have hw' : isWs c = false := Bool.not_eq_true _ |>.mp hw
      constructor
      · rw [collapseGo_false_cons, if_neg hw, ih1]
      · intro _
        rw [collapseGo_true_cons, if_neg hw, ih1]

/-! ## Lemmas: cleaned tags are canonical and cleaning is stable on them -/

/-- Every output of the cleaning chain is canonical. -/
theorem cleanTag_canon (u : List Char) : canonTag (cleanTag u) := by
  unfold cleanTag trim trimL
  refine ⟨?_, ?_, ?_, ?_⟩
  · intro a ha
    have ha' := mem_dropWhile _ _ _ (mem_trimRgo _ _ ha)
    rcases mem_collapseGo _ false a ha' with rfl | ⟨hm, hnw⟩
    · decide
    · rcases mem_replaceNonWord _ _ hm with hword | hws
      · simp [goodChar, hword]
      · rw [hws] at hnw; cases hnw
  · exact noAdj_trimRgo _ (noAdj_dropWhile _ _ (noAdj_collapseGo _ false))
  · exact headSat_trimRgo _ _ (headSat_dropWhile _ _)
  · exact lastNotWs_trimRgo _

theorem trim_id (l : List Char) (hh : headSat isWs l = true) (hl : lastNotWs l = true) :
    trim l = l := by
  unfold trim trimL
  rw [dropWhile_eq_self_of_headSat _ _ hh, trimRgo_id _ hl]

/-- Cleaning is the identity on a canonical tag that does not start with a
digit. -/
theorem cleanTag_id (t : List Char) (hc : canonTag t) (hd : startsWithDigit t = false) :
    cleanTag t = t := by
  obtain ⟨hg, hn, hh, hl⟩ := hc
  have h1 : stripLead t = t := by
    cases t with
    | nil => rfl
    | cons c cs =>
      have hlead : isLeadStrip c = false :=
        good_not_lead c (hg c (List.mem_cons_self _ _)) (by simpa [startsWithDigit] using hd)
      show (if isLeadStrip c then ((c :: cs).dropWhile isLeadStrip).dropWhile isWs
            else c :: cs) = c :: cs
      rw [if_neg (by simp [hlead])]
  have h2 : stripTrail t = t := by
    unfold stripTrail
    have hrev : headSat isTrailStrip t.reverse = true := by
      cases hr : t.reverse with
      | nil => rfl
      | cons c cs =>
        have hcmem : c ∈ t := by
          rw [← List.mem_reverse, hr]; exact List.mem_cons_self _ _
        have := good_not_trail c (hg c hcmem)
        simp [headSat, this]
    rw [dropWhile_eq_self_of_headSat _ _ hrev, List.reverse_reverse]
  have h3 : replaceNonWord t = t :=
    map_eq_self_of_mem _ _ (fun a ha => replaceChar_id a (hg a ha))
  have h4 : collapseGo false t = t := (collapseGo_id t hg hn).1
  unfold cleanTag
  rw [h1, h2, h3, h4]
  exact trim_id t hh hl

/-! ## Lemmas: splitting the comma-join of delimiter-free tags -/

theorem splitPAux_cons (p : Char → Bool) (c : Char) (cs : List Char) :
    splitPAux p (c :: cs) =
      if p c then ([], (splitPAux p cs).1 :: (splitPAux p cs).2)
      else (c :: (splitPAux p cs).1, (splitPAux p cs).2) := rfl

/-- Prepending characters free of the split class extends the first piece. -/
theorem splitPAux_append_of_no (p : Char → Bool) (t r : List Char)
    (h : ∀ a ∈ t, p a = false) :
    splitPAux p (t ++ r) = (t ++ (splitPAux p r).1, (splitPAux p r).2) := by
  induction t with
  | nil => simp
  | cons c cs ih =>
    have hc : p c = false := h c (List.mem_cons_self _ _)
    rw [List.cons_append, splitPAux_cons, if_neg (by simp [hc]),
      ih (fun a ha => h a (List.mem_cons_of_mem _ ha))]
    simp

/-- Splitting the comma-join of delimiter-free tags gives back the first tag
and each later tag with the one space the join inserted after the comma. -/
theorem splitPAux_joinTags (t : List Char) (ts : List (List Char))
    (h : ∀ u ∈ t :: ts, ∀ a ∈ u, isSep a = false) :
    splitPAux isSep (joinTags (t :: ts)) = (t, ts.map (fun v => ' ' :: v)) := by
  induction ts generalizing t with
  | nil =>
    have hj : joinTags [t] = t ++ [] := by simp [joinTags]
    rw [hj, splitPAux_append_of_no isSep t []
      (fun a ha => h t (List.mem_cons_self _ _) a ha)]
    simp [splitPAux]
  | cons u us ih =>
    have hj : joinTags (t :: u :: us) = t ++ ',' :: ' ' :: joinTags (u :: us) := rfl
    rw [hj, splitPAux_append_of_no isSep t _
      (fun a ha => h t (List.mem_cons_self _ _) a ha)]
    rw [splitPAux_cons, if_pos (by decide), splitPAux_cons, if_neg (by decide)]
    rw [ih u (fun v hv => h v (List.mem_cons_of_mem _ hv))]
    simp

theorem splitP_joinTags (t : List Char) (ts : List (List Char))
    (h : ∀ u ∈ t :: ts, ∀ a ∈ u, isSep a = false) :
    splitP isSep (joinTags (t :: ts)) = t :: ts.map (fun v => ' ' :: v) := by
  unfold splitP
  rw [splitPAux_joinTags t ts h]

/-! ## Lemmas: the shape of the normalizer output -/

/-- Every entry of the normalizer output passed the filter and is the result
of the cleaning chain on some candidate. -/
theorem mem_normalizeTags (s t : List Char) (ht : t ∈ normalizeTags s) :
    keepTag t = true ∧ ∃ u, cleanTag u = t := by
  unfold normalizeTags at ht
  have h1 := (List.take_sublist 20 _).subset ht
  rcases List.mem_filter.mp h1 with ⟨h2, hkeep⟩
  rcases List.mem_map.mp h2 with ⟨u, _, rfl⟩
  exact ⟨hkeep, u, rfl⟩

theorem length_normalizeTags (s : List Char) : (normalizeTags s).length ≤ 20 :=
  List.length_take_le 20 _

/-- Renormalizing the comma-join of a normalizer output whose entries do not
start with a digit gives the output back unchanged. -/
theorem normalizeTags_join_self (s : List Char)
    (h : ∀ t ∈ normalizeTags s, startsWithDigit t = false) :
    normalizeTags (joinTags (normalizeTags s)) = normalizeTags s := by
  have hprops : ∀ t ∈ normalizeTags s, canonTag t ∧ keepTag t = true ∧ cleanTag t = t := by
    intro t ht
    obtain ⟨hkeep, u, rfl⟩ := mem_normalizeTags s t ht
    have hc := cleanTag_canon u
    exact ⟨hc, hkeep, cleanTag_id _ hc (h _ ht)⟩
  have hlen := length_normalizeTags s
  cases hts : normalizeTags s with
  | nil => rfl
  | cons t rest =>
    have hall : ∀ x ∈ t :: rest, canonTag x ∧ keepTag x = true ∧ cleanTag x = x := by
      intro x hx
      exact hprops x (hts ▸ hx)
    have hsep : ∀ u ∈ t :: rest, ∀ a ∈ u, isSep a = false := by
      intro u hu a ha
      exact good_not_sep a ((hall u hu).1.1 a ha)
    unfold normalizeTags
    rw [splitP_joinTags _ _ hsep, List.map_cons, List.map_map]
    have htcanon := (hall t (List.mem_cons_self _ _)).1
    have htr : trim t = t := trim_id t htcanon.2.2.1 htcanon.2.2.2
    have hmaprest : rest.map (trim ∘ fun v => ' ' :: v) = rest := by
      apply map_eq_self_of_mem
      intro v hv
      have hcv := (hall v (List.mem_cons_of_mem _ hv)).1
      show trim (' ' :: v) = v
      unfold trim trimL
      rw [List.dropWhile_cons, if_pos (by decide),
        dropWhile_eq_self_of_headSat _ _ hcv.2.2.1, trimRgo_id _ hcv.2.2.2]
    rw [htr, hmaprest,
      map_eq_self_of_mem _ _ (fun x hx => (hall x hx).2.2),
      List.filter_eq_self.mpr (fun x hx => (hall x hx).2.1)]
    apply List.take_of_length_le
    rw [← hts]
    exact hlen

/-! ## Claim theorems -/

/-- Claim C1 (code-bug evidence): `parseMultipartData` applies a full JS
`trim()` to every part body, so a file payload is not recovered
byte-for-byte — the payload `" A "` is stored as `"A"`, with its leading and
trailing whitespace bytes gone, not merely the boundary-induced CRLF. -/
theorem c1_file_bytes_not_preserved :
    parseMultipartData (some "multipart/form-data; boundary=X".toList)
      "--X\r\nContent-Disposition: form-data; name=\"image\"; filename=\"a.jpg\"\r\n\r\n A \r\n--X--".toList =
      .ok ⟨[], [("image".toList, "A".toList)]⟩ ∧ "A".toList ≠ " A ".toList :=
  ⟨rfl, by decide⟩

/-- Claim C2: merging with `avoidOverwrite = true` leaves every field that
started non-empty unchanged, and merging with `avoidOverwrite = false` sets
every targeted field to the generated value whenever one exists. -/
theorem c2_merge_policy (doc : DescField → List Char) (g : Option (List Char))
    (f : DescField) :
    (doc f ≠ [] → mergeField true (doc f) g = doc f)
  ∧ (∀ t, g = some t → mergeField false (doc f) g = t) := by
  constructor
  · intro hne
    cases g with
    | none => rfl
    | some t =>
      have hemp : (doc f).isEmpty = false := by
        cases hdoc : doc f with
        | nil => exact absurd hdoc hne
        | cons a as => rfl
      simp [mergeField, hemp]
  · intro t ht
    subst ht
    rfl

/-- Witness for C2 at a concrete non-empty field and generated text. -/
theorem c2_merge_policy_witness :
    mergeField true "x".toList (some "y".toList) = "x".toList ∧
    mergeField false "x".toList (some "y".toList) = "y".toList :=
  ⟨(c2_merge_policy (fun _ => "x".toList) (some "y".toList) DescField.xpComment).1
      (by decide),
    (c2_merge_policy (fun _ => "x".toList) (some "y".toList) DescField.xpComment).2
      "y".toList rfl⟩

/-- Claim C3: the normalized tag list has at most 20 entries; every entry is
non-empty, at most 50 characters long and has at most 2 space-separated
words; and the output preserves the order of appearance (it is a sublist of
the cleaned candidate sequence). -/
theorem c3_tag_bounds (s : List Char) :
    (normalizeTags s).length ≤ 20
  ∧ (∀ t ∈ normalizeTags s,
      t ≠ [] ∧ t.length ≤ 50 ∧ (splitP isSpaceChar t).length ≤ 2)
  ∧ List.Sublist (normalizeTags s) (((splitP isSep s).map trim).map cleanTag) := by
  refine ⟨length_normalizeTags s, ?_, ?_⟩
  · intro t ht
    obtain ⟨hkeep, -⟩ := mem_normalizeTags s t ht
    unfold keepTag at hkeep
    rw [Bool.and_eq_true, Bool.and_eq_true] at hkeep
    obtain ⟨⟨h1, h2⟩, h3⟩ := hkeep
    exact ⟨List.length_pos.mp (of_decide_eq_true h1), of_decide_eq_true h2,
      of_decide_eq_true h3⟩
  · unfold normalizeTags
    exact (List.take_sublist 20 _).trans (List.filter_sublist _)

/-- Witness for C3 at a concrete entry of a concrete normalization. -/
theorem c3_tag_bounds_witness :
    "ab".toList ≠ [] ∧ "ab".toList.length ≤ 50 ∧
      (splitP isSpaceChar "ab".toList).length ≤ 2 :=
  (c3_tag_bounds "ab".toList).2.1 "ab".toList (by decide)

/-- Claim C4 counterexample: one normalize-join-normalize round trip on
`"#5"` changes the number of tags (`["5"]` becomes `[]`, because the digit
tag is stripped to nothing on reapplication), so the two sides differ beyond
any casing or whitespace canonicalization. -/
theorem c4_not_idempotent_cx :
    (normalizeTags (joinTags (normalizeTags "#5".toList))).length ≠
      (normalizeTags "#5".toList).length := by decide

/-- Claim C4 (amended): renormalizing the comma-joined output is the
identity whenever no entry of the first output starts with a decimal digit;
an entry starting with a digit is stripped further on reapplication, so
idempotence fails in general. -/
theorem c4_idempotent_no_digit_head (s : List Char)
    (h : ∀ t ∈ normalizeTags s, startsWithDigit t = false) :
    normalizeTags (joinTags (normalizeTags s)) = normalizeTags s :=
  normalizeTags_join_self s h

/-- Witness for C4 at a concrete digit-free normalization. -/
theorem c4_idempotent_witness :
    normalizeTags (joinTags (normalizeTags "mountain, sky".toList)) =
      normalizeTags "mountain, sky".toList :=
  c4_idempotent_no_digit_head "mountain, sky".toList (by decide)

/-- Claim C5 counterexample: the scenario input does not normalize to
`["Mountain", "Sky", "Night stars"]` — the four-word candidate
`"Night stars and clouds"` is discarded whole by the 2-word filter, never
truncated to `"Night stars"`. -/
theorem c5_scenario_cx :
    normalizeTags "* Mountain, **Sky**\nNight stars and clouds".toList ≠
      ["Mountain".toList, "Sky".toList, "Night stars".toList] := by decide

/-- Claim C5 (amended): the scenario yields `["Mountain", "Sky"]`: the
bullet and markdown artifacts are stripped, and the multi-word candidate is
dropped by the 2-word filter. -/
theorem c5_scenario_amended :
    normalizeTags "* Mountain, **Sky**\nNight stars and clouds".toList =
      ["Mountain".toList, "Sky".toList] := by decide

/-- Claim C6: the description outcome does not depend on the tag call and
the tag outcome does not depend on the description call, and when both calls
fail (as with an unknown provider identifier, modelled by a dispatch over a
registry not containing the identifier) the response is still status 200
with `success = true`, an empty description and an empty tag list. -/
theorem c6_task_isolation (tasks : List (List Char))
    (dc tc dc2 tc2 : Except (List Char) GenResult)
    (registry : List (List Char)) (p : List Char) (r1 r2 : GenResult)
    (h : registry.contains p = false) :
    (processTasks tasks dc tc).description = (processTasks tasks dc tc2).description
  ∧ (processTasks tasks dc tc).tags = (processTasks tasks dc2 tc).tags
  ∧ (processTasks tasks (dispatch registry p r1) (dispatch registry p r2)).status = 200
  ∧ (processTasks tasks (dispatch registry p r1) (dispatch registry p r2)).success = true
  ∧ (processTasks tasks (dispatch registry p r1) (dispatch registry p r2)).description = []
  ∧ (processTasks tasks (dispatch registry p r1) (dispatch registry p r2)).tags = [] := by
  have hnc : ¬(registry.contains p = true) := by
    rw [h]
    decide
  have hdisp1 : dispatch registry p r1 = .error ("Unknown provider: ".toList ++ p) := by
    unfold dispatch
    rw [if_neg hnc]
  have hdisp2 : dispatch registry p r2 = .error ("Unknown provider: ".toList ++ p) := by
    unfold dispatch
    rw [if_neg hnc]
  refine ⟨rfl, rfl, rfl, rfl, ?_, ?_⟩
  · show (descOutcome tasks (dispatch registry p r1)).1 = []
    rw [hdisp1]
    unfold descOutcome
    split <;> rfl
  · show (match (tagOutcome tasks (dispatch registry p r2)).1 with
          | some txt => normalizeTags txt
          | none => []) = []
    rw [hdisp2]
    have htag : (tagOutcome tasks (Except.error ("Unknown provider: ".toList ++ p))).1 =
        (none : Option (List Char)) := by
      unfold tagOutcome
      split <;> rfl
    rw [htag]

/-- Witness for C6 at an empty registry (every provider unknown). -/
theorem c6_task_isolation_witness :
    (processTasks [] (dispatch [] "ollama".toList ⟨[], none⟩)
      (dispatch [] "ollama".toList ⟨[], none⟩)).success = true :=
  (c6_task_isolation [] (.error []) (.error []) (.error []) (.error [])
    [] "ollama".toList ⟨[], none⟩ ⟨[], none⟩ rfl).2.2.2.1

/-- Claim C7 (amended): the decode fails exactly when no boundary token is
extracted from the content-type header (missing header, missing `boundary=`
marker, or empty token); in particular a body whose parts all lack headers
still decodes successfully. -/
theorem c7_fails_iff_no_boundary (ct : Option (List Char)) (body : List Char) :
    exceptOk (parseMultipartData ct body) = (extractBoundary ct).isSome := by
  cases h : extractBoundary ct <;> simp [parseMultipartData, h, exceptOk]

/-- Claim C7 counterexample: a body none of whose parts carries any header
decodes successfully (to empty fields and files) under a valid boundary,
where the claim asserts a parse error. -/
theorem c7_no_headers_still_ok :
    parseMultipartData (some "multipart/form-data; boundary=X".toList)
      "--X\r\nhello\r\n--X--".toList = .ok ⟨[], []⟩ := rfl

/-- Claim C8 (amended): a part without the `Content-Disposition: form-data`
marker, or whose header block has no match of the name pattern, is silently
skipped: it contributes no field or file entry and cannot fail the decode. -/
theorem c8_skip_condition (st : FormData) (part : List Char)
    (h : containsSub dispMarker part = false ∨
      matchCapture nameKey (partHeaders part) = none) :
    processPart st part = st := by
  unfold processPart
  rcases h with h | h
  · rw [h]
    simp
  · rw [h]
    split <;> rfl

/-- Witness for C8 at a concrete marker-free part. -/
theorem c8_skip_condition_witness :
    processPart ⟨[], []⟩ "junk".toList = ⟨[], []⟩ :=
  c8_skip_condition ⟨[], []⟩ "junk".toList (Or.inl (by decide))

/-- Claim C8 counterexample: a part carrying a filename attribute but no
name attribute is not skipped — the name pattern matches inside
`filename="…"`, so the part is stored as a file keyed by its filename
instead of contributing no entry. -/
theorem c8_filename_only_not_skipped :
    parseMultipartData (some "multipart/form-data; boundary=X".toList)
      "--X\r\nContent-Disposition: form-data; filename=\"f.jpg\"\r\n\r\ndata\r\n--X--".toList =
      .ok ⟨[], [("f.jpg".toList, "data".toList)]⟩ := rfl

/-- Claim C9: in dry mode the persisted document is unchanged at every
field, for every overwrite setting and generated value. -/
theorem c9_dry_no_mutation (opts : PipelineOptions) (doc : DescField → List Char)
    (g : Option (List Char)) (f : DescField) (h : opts.dry = true) :
    (executeMerge opts doc g).persisted f = doc f := by
  unfold executeMerge
  simp [h]

/-- Witness for C9 at a concrete dry run over a populated document. -/
theorem c9_dry_no_mutation_witness :
    (executeMerge ⟨true, true⟩ (fun _ => "old".toList) (some "new".toList)).persisted
      DescField.description = "old".toList :=
  c9_dry_no_mutation ⟨true, true⟩ (fun _ => "old".toList) (some "new".toList)
    DescField.description rfl

/-- Claim C10: the success response carries a `tokenUsage` object exactly
when the total token count is positive, and the object records the two
per-task counts and their sum. -/
theorem c10_token_usage (tasks : List (List Char))
    (dc tc : Except (List Char) GenResult) :
    ((processTasks tasks dc tc).tokenUsage.isSome = true ↔
      0 < (descOutcome tasks dc).2 + (tagOutcome tasks tc).2)
  ∧ ∀ u, (processTasks tasks dc tc).tokenUsage = some u →
      u.total = (descOutcome tasks dc).2 + (tagOutcome tasks tc).2
      ∧ u.description = (descOutcome tasks dc).2
      ∧ u.tags = (tagOutcome tasks tc).2 := by
  have hu : (processTasks tasks dc tc).tokenUsage =
      if 0 < (descOutcome tasks dc).2 + (tagOutcome tasks tc).2 then
        some ⟨(descOutcome tasks dc).2, (tagOutcome tasks tc).2,
          (descOutcome tasks dc).2 + (tagOutcome tasks tc).2⟩
      else none := rfl
  rw [hu]
  constructor
  · split
    · rename_i hpos
      simp [hpos]
    · rename_i hpos
      simp [hpos]
  · intro u hu2
    split at hu2
    · injection hu2 with h3
      subst h3
      exact ⟨rfl, rfl, rfl⟩
    · exact absurd hu2 (by simp)

/-- Witness for C10 at a concrete request whose description call reports 5
tokens. -/
theorem c10_token_usage_witness :
    (⟨5, 0, 5⟩ : TokenUsage).total =
      (descOutcome ["description".toList] (Except.ok ⟨"x".toList, some 5⟩)).2 +
        (tagOutcome ["description".toList] (Except.error [])).2
    ∧ (⟨5, 0, 5⟩ : TokenUsage).description =
        (descOutcome ["description".toList] (Except.ok ⟨"x".toList, some 5⟩)).2
    ∧ (⟨5, 0, 5⟩ : TokenUsage).tags =
        (tagOutcome ["description".toList] (Except.error [])).2 :=
  (c10_token_usage ["description".toList] (Except.ok ⟨"x".toList, some 5⟩)
    (Except.error [])).2 ⟨5, 0, 5⟩ rfl

